import Mathlib

/-!
Verification of the streaming/transcoding subsystem of `app/app.py`
(filebrowser). Each definition is a shallow embedding of the Python
function named in its doc comment; theorems below settle the frozen
claims about range streaming, transcode process lifecycle, seek
strategy, codec classification, track labels and the watch-history
store.
-/

/-! ## Watch-history store (`track_view`, `save_playback_position`)

The SQLite table `watch_history` is modelled as a list of records in
insertion (rowid) order.  `datetime.now()` / `CURRENT_TIMESTAMP` is an
explicit `now` parameter.  `playback_position` is a SQL REAL; the code
never computes with it (it only stores and returns it), so it is
modelled as an integer-valued opaque quantity.  Database errors (the
`except` branches that only log) are outside the model. -/

structure WatchRecord where
  ip_address : String
  file_path : String
  file_name : String
  file_type : String
  file_size : Int
  first_watched : Nat
  last_watched : Nat
  view_count : Int
  playback_position : Int
deriving DecidableEq, Repr

/-- The `WHERE ip_address = ? AND file_path = ?` condition. -/
def recMatches (ip fpath : String) (r : WatchRecord) : Bool :=
  r.ip_address = ip ∧ r.file_path = fpath

/-- Number of rows of the store matching `(ip, fpath)`. -/
def countMatch (ip fpath : String) (store : List WatchRecord) : Nat :=
  store.countP (recMatches ip fpath)

/-- `track_view` (app.py lines 93-114): `SELECT id, view_count ... fetchone()`
returns the first matching row; if one exists, `UPDATE ... WHERE id = ?`
bumps exactly that row's `view_count` and `last_watched`; otherwise a new
row is inserted with the `view_count` default 1 and `playback_position`
default 0. -/
def track_view (now : Nat) (ip fpath name ftype : String) (size : Int) :
    List WatchRecord → List WatchRecord
  | [] => [⟨ip, fpath, name, ftype, size, now, now, 1, 0⟩]
  | r :: rs =>
    if recMatches ip fpath r then
      { r with last_watched := now, view_count := r.view_count + 1 } :: rs
    else
      r :: track_view now ip fpath name ftype size rs

/-- `save_playback_position` (app.py lines 422-437): a single SQL
`UPDATE watch_history SET playback_position = ?, last_watched = CURRENT_TIMESTAMP
WHERE ip_address = ? AND file_path = ?`; it touches every matching row (an
update matching zero rows is a silent no-op) and the endpoint then returns
`{"success": true}` unconditionally. -/
def save_playback_position (now : Nat) (ip fpath : String) (position : Int)
    (store : List WatchRecord) : List WatchRecord × Bool :=
  (store.map fun r =>
    if recMatches ip fpath r then
      { r with playback_position := position, last_watched := now }
    else r, true)

/-! ## Codec classification (`get_video_info`, `transcode_stream`)

Codec names are byte strings; `str.lower()` on the ASCII codec names
ffprobe emits is modelled bytewise. -/

/-- The bytes of a string literal (all codec names involved are ASCII). -/
def strBytes (s : String) : List Nat :=
  s.data.map Char.toNat

/-- ASCII lowercasing of one byte, as Python `str.lower()` acts on the
ASCII codec names involved. -/
def lowerByte (b : Nat) : Nat :=
  if 65 ≤ b ∧ b ≤ 90 then b + 32 else b

/-- Python `s.lower()` on an ASCII byte string. -/
def pyLower (s : List Nat) : List Nat :=
  s.map lowerByte

/-- `unsupported` in `get_video_info` (app.py line 172). -/
def unsupported_codecs : List (List Nat) :=
  [strBytes "xvid", strBytes "divx", strBytes "mpeg4", strBytes "msmpeg4",
   strBytes "wmv", strBytes "flv1", strBytes "vp6"]

/-- `compatible_codecs` in `transcode_stream` (app.py line 582). -/
def compatible_codecs : List (List Nat) :=
  [strBytes "h264", strBytes "avc1", strBytes "hevc", strBytes "h265"]

/-- app.py line 170: `codec = data['streams'][0].get('codec_name', '').lower()` —
the codec field of the `get_video_info` result, from the raw probed name. -/
def get_video_info_codec (raw : List Nat) : List Nat :=
  pyLower raw

/-- app.py line 173: `info['needs_transcode'] = codec in unsupported`,
as a function of the raw probed codec name. -/
def needs_transcode (raw : List Nat) : Bool :=
  get_video_info_codec raw ∈ unsupported_codecs

/-- app.py line 583: `can_copy_video = video_info['codec'].lower() in
compatible_codecs`, taking the already-lowercased `video_info['codec']`. -/
def can_copy_video (codec : List Nat) : Bool :=
  pyLower codec ∈ compatible_codecs

/-- The copy-eligible classification as a function of the raw probed codec
name: the composition of `get_video_info` and the `transcode_stream` test. -/
def classifiesCopyEligible (raw : List Nat) : Bool :=
  can_copy_video (get_video_info_codec raw)

/-! ## Track display labels (`get_audio_tracks`, `get_subtitle_tracks`)

Only the fields that feed the display-label synthesis are modelled
(`index`/`stream_index`/`codec`/`sample_rate` are carried through the
Python dict but never used for the label).  A `none` field models an
absent JSON key, so `stream.get('channels', 2)` is `channels.getD 2`
and `stream.get('tags', {}).get('language', '')` is `language.getD ""`
(an absent `tags` object makes both `language` and `title` absent). -/

/-- ASCII uppercasing of one character, as Python `str.upper()` acts on
the ASCII language tags involved. -/
def upperChar (c : Char) : Char :=
  if 97 ≤ c.toNat ∧ c.toNat ≤ 122 then Char.ofNat (c.toNat - 32) else c

/-- Python `s.upper()` on an ASCII string. -/
def pyUpper (s : String) : String :=
  ⟨s.data.map upperChar⟩

/-- app.py line 216: `'5.1' if ch == 6 else '7.1' if ch == 8 else f'{ch}ch'`. -/
def chLabel (ch : Int) : String :=
  if ch = 6 then "5.1" else if ch = 8 then "7.1" else toString ch ++ "ch"

/-- One probed audio stream, as `get_audio_tracks` reads it. -/
structure AudioStream where
  channels : Option Int
  language : Option String
  title : Option String
deriving DecidableEq, Repr

/-- The label-building block of `get_audio_tracks` (app.py lines 208-219)
for the stream at enumeration index `i`: parts are language uppercased
(when truthy), title (when truthy), and the channel label (when the
channel count — defaulted to 2 — is truthy, i.e. nonzero); joined with
`" - "`, falling back to `Track (i+1)` only when no part was added. -/
def audio_label (i : Nat) (s : AudioStream) : String :=
  let language := s.language.getD ""
  let title := s.title.getD ""
  let channels := s.channels.getD 2
  let parts1 : List String := if language ≠ "" then [pyUpper language] else []
  let parts2 : List String := parts1 ++ (if title ≠ "" then [title] else [])
  let parts3 : List String := parts2 ++ (if channels ≠ 0 then [chLabel channels] else [])
  if parts3 ≠ [] then String.intercalate " - " parts3
  else "Track " ++ toString (i + 1)

/-- The display labels of `get_audio_tracks` in stream order
(`for i, stream in enumerate(data.get('streams', []))`). -/
def get_audio_track_labels (streams : List AudioStream) : List String :=
  streams.enum.map fun p => audio_label p.1 p.2

/-- One probed subtitle stream, as `get_subtitle_tracks` reads it. -/
structure SubtitleStream where
  language : Option String
  title : Option String
deriving DecidableEq, Repr

/-- The label-building block of `get_subtitle_tracks` (app.py lines
253-262): language uppercased (when truthy) and title (when truthy);
when no part was added, `Track (i+1)` is appended; joined with `" - "`. -/
def subtitle_label (i : Nat) (s : SubtitleStream) : String :=
  let language := s.language.getD ""
  let title := s.title.getD ""
  let parts1 : List String := if language ≠ "" then [pyUpper language] else []
  let parts2 : List String := parts1 ++ (if title ≠ "" then [title] else [])
  let parts3 : List String :=
    if parts2 = [] then parts2 ++ ["Track " ++ toString (i + 1)] else parts2
  String.intercalate " - " parts3

/-- The display labels of `get_subtitle_tracks` in stream order. -/
def get_subtitle_track_labels (streams : List SubtitleStream) : List String :=
  streams.enum.map fun p => subtitle_label p.1 p.2

/-! ## Encoder command construction (`transcode_stream`, app.py lines 585-630)

One token per `cmd` list element.  `.time q` stands for `str(q)` of a
seek position, `.path` for `full_path`, `.audioIdx n` for the f-string
`0:a:` followed by the audio track number; fixed arguments are `.lit`
literals.  `start_time` is a Python float used only for `> 0`
comparisons, `- 30`, `max(0, ·)` and one subtraction whose operands make
it exact in IEEE double as well, so it is modelled as a rational. -/

inductive Tok where
  | lit (s : String)
  | time (q : ℚ)
  | path
  | audioIdx (n : Int)
deriving DecidableEq, Repr

/-- The `ffmpeg` command `transcode_stream` builds, given the
(already-lowercased) `video_info['codec']`, `start_time` and
`audio_track`. -/
def transcode_cmd (codec : List Nat) (start_time : ℚ) (audio_track : Int) :
    List Tok :=
  let cmd : List Tok := [.lit "ffmpeg"]
  let cmd : List Tok :=
    if can_copy_video codec then
      -- copy mode: hybrid seek (fast coarse + accurate fine)
      let cmd : List Tok :=
        if start_time > 0 then
          let coarse_seek := max 0 (start_time - 30)
          let fine_seek := start_time - coarse_seek
          let cmd := cmd ++ (if coarse_seek > 0 then [.lit "-ss", .time coarse_seek] else [])
          let cmd := cmd ++ [.lit "-i", .path]
          cmd ++ (if fine_seek > 0 then [.lit "-ss", .time fine_seek] else [])
        else
          cmd ++ [.lit "-i", .path]
      cmd ++
        [.lit "-map", .lit "0:v:0", .lit "-map", .audioIdx audio_track,
         .lit "-c:v", .lit "copy", .lit "-c:a", .lit "aac", .lit "-b:a",
         .lit "192k", .lit "-ac", .lit "2", .lit "-avoid_negative_ts",
         .lit "make_zero"]
    else
      -- transcode mode: -ss before input
      let cmd : List Tok :=
        (if start_time > 0 then cmd ++ [.lit "-ss", .time start_time] else cmd) ++
          [.lit "-i", .path]
      cmd ++
        [.lit "-map", .lit "0:v:0", .lit "-map", .audioIdx audio_track,
         .lit "-c:v", .lit "libx264", .lit "-preset", .lit "ultrafast",
         .lit "-tune", .lit "zerolatency", .lit "-crf", .lit "28",
         .lit "-threads", .lit "0", .lit "-c:a", .lit "aac", .lit "-b:a",
         .lit "192k", .lit "-ac", .lit "2"]
  cmd ++ [.lit "-movflags", .lit "frag_keyframe+empty_moov+faststart",
          .lit "-f", .lit "mp4", .lit "pipe:1"]

/-- The command tokens before the `-i` input argument. -/
def takeUntilInput : List Tok → List Tok
  | [] => []
  | tok :: rest => if tok = .lit "-i" then [] else tok :: takeUntilInput rest

/-- The command tokens after the `-i` input argument. -/
def dropUntilInput : List Tok → List Tok
  | [] => []
  | tok :: rest => if tok = .lit "-i" then rest else dropUntilInput rest

/-- The seek positions among some tokens.  In `transcode_cmd` a `.time`
token occurs exactly as the argument of a `-ss` flag, so these are the
seek arguments. -/
def seekTimes : List Tok → List ℚ
  | [] => []
  | .time q :: rest => q :: seekTimes rest
  | .lit _ :: rest => seekTimes rest
  | .path :: rest => seekTimes rest
  | .audioIdx _ :: rest => seekTimes rest

/-- Seek arguments placed before the input. -/
def seeksBefore (cmd : List Tok) : List ℚ :=
  seekTimes (takeUntilInput cmd)

/-- Seek arguments placed after the input. -/
def seeksAfter (cmd : List Tok) : List ℚ :=
  seekTimes (dropUntilInput cmd)

/-! ## Transcode process lifecycle (`transcode_generator`, app.py lines 632-656)

The spawned encoder process is observed through three facts: whether the
OS process has terminated, whether its exit status has been collected
(`waitpid` succeeded, via `wait()` or a reaping `poll()`), and whether
`kill()` was invoked on it.  `poll()` is CPython's non-blocking
`waitpid`: it reaps and returns the exit code when the process has
terminated by the moment of the call, else returns `None`; that moment
is supplied as a scheduling parameter, since a killed process dies
asynchronously. -/

structure ProcState where
  exited : Bool
  reaped : Bool
  killSent : Bool
deriving DecidableEq, Repr

/-- `subprocess.Popen(...)`: a fresh live process. -/
def popenState : ProcState := ⟨false, false, false⟩

/-- `process.kill()`: sends SIGKILL; the process will terminate, but not
necessarily before the next observation. -/
def procKill (s : ProcState) : ProcState :=
  { s with killSent := true }

/-- `process.wait()`: blocks until the process terminates and reaps it. -/
def procWait (s : ProcState) : ProcState :=
  { s with exited := true, reaped := true }

/-- `process.poll()`: `(isNone, new state)`.  `deadNow` says whether the
OS reports the process terminated at this instant; when it does, `poll`
reaps and returns the exit code (not `None`). -/
def procPoll (s : ProcState) (deadNow : Bool) : Bool × ProcState :=
  if s.exited || deadNow then (false, { s with exited := true, reaped := true })
  else (true, s)

/-- The three exit paths of the generator: the pipe reaches EOF and the
loop breaks; the client disconnects (`GeneratorExit` or
`asyncio.CancelledError` at the `yield`/`await`); any other exception
while reading the pipe. -/
inductive ExitPath where
  | normalEnd
  | cancelled
  | readExc
deriving DecidableEq, Repr

/-- The process state when `transcode_generator` finishes, per exit path.
`d1` is whether the process happens to have terminated by the `poll()`
in the matching `except` handler, `d2` by the `poll()` in `finally`.
Branch by branch from app.py lines 632-656:
normal end — the loop breaks on an empty chunk, `process.wait()`, then
`finally` polls (the process is reaped so there is no kill);
cancellation — `if process.poll() is None: process.kill(); process.wait()`,
re-raise, then `finally` polls;
other exception — `if process.poll() is None: process.kill()` with no
wait, then `finally` polls and kills again if still running. -/
def transcode_generator_final (path : ExitPath) (d1 d2 : Bool) : ProcState :=
  match path with
  | .normalEnd =>
    let s := procWait popenState
    let p := procPoll s d2
    if p.1 then procKill p.2 else p.2
  | .cancelled =>
    let p1 := procPoll popenState d1
    let s := if p1.1 then procWait (procKill p1.2) else p1.2
    let p2 := procPoll s d2
    if p2.1 then procKill p2.2 else p2.2
  | .readExc =>
    let p1 := procPoll popenState d1
    let s := if p1.1 then procKill p1.2 else p1.2
    let p2 := procPoll s d2
    if p2.1 then procKill p2.2 else p2.2

/-! ## Range streaming (`stream_media`, app.py lines 508-559)

The file body is a list of bytes; the `Range` header value is a list of
characters.  The `try` block of the range branch is modelled as an
`Option`: `none` is any raised exception, which the `except` turns into
HTTP 416. -/

/-- Python `int(s)` on the dash-free pieces a `Range` header is split
into: optional sign then at least one digit (`int` additionally strips
whitespace and allows inner underscores, which no header below uses);
`none` is a raised `ValueError`. -/
def digitsVal : List Char → Option Nat → Option Nat
  | [], acc => acc
  | c :: cs, acc =>
    if c.isDigit then
      digitsVal cs (some ((acc.getD 0) * 10 + (c.toNat - 48)))
    else none

def pyInt : List Char → Option Int
  | '-' :: rest => (digitsVal rest none).map fun n => -(n : Int)
  | '+' :: rest => (digitsVal rest none).map fun n => (n : Int)
  | cs => (digitsVal cs none).map fun n => (n : Int)

/-- `range_header.replace('bytes=', '')`: removes every (non-overlapping,
left-to-right) occurrence of `bytes=`. -/
def stripBytesEq : List Char → List Char
  | 'b' :: 'y' :: 't' :: 'e' :: 's' :: '=' :: rest => stripBytesEq rest
  | c :: rest => c :: stripBytesEq rest
  | [] => []

/-- Python `s.split('-')`. -/
def splitOnDash : List Char → List (List Char)
  | [] => [[]]
  | c :: cs =>
    match splitOnDash cs with
    | [] => [[]]
    | p :: ps => if c = '-' then [] :: p :: ps else (c :: p) :: ps

/-- app.py lines 530-533: strip `bytes=`, split on `-`, `start` from the
first piece (0 when empty), `end` from the second (when there are at
least two pieces and it is nonempty, else `file_size - 1`); `none` is an
`int()` `ValueError`. -/
def parse_range_header (header : List Char) (file_size : Int) :
    Option (Int × Int) :=
  let range_str := stripBytesEq header
  let range_parts := splitOnDash range_str
  let p0 := range_parts.headD []
  let p1 := range_parts.getD 1 []
  match (if p0.isEmpty then some 0 else pyInt p0),
        (if range_parts.length > 1 ∧ ¬p1.isEmpty then pyInt p1
         else some (file_size - 1)) with
  | some s, some e => some (s, e)
  | _, _ => none

/-- `f.seek(pos)` then `f.read(n)` on a binary file: a negative seek
raises; `BufferedReader.read` reads to EOF for `n = -1`, raises
`ValueError` for `n < -1`, and returns up to `n` bytes otherwise. -/
def bufRead (file : List Nat) (pos n : Int) : Option (List Nat) :=
  if pos < 0 then none
  else if n = -1 then some (file.drop pos.toNat)
  else if n < -1 then none
  else some ((file.drop pos.toNat).take n.toNat)

/-- The `Content-Range` header value `f'bytes {start}-{end}/{file_size}'`. -/
def contentRangeValue (s e total : Int) : String :=
  "bytes " ++ toString s ++ "-" ++ toString e ++ "/" ++ toString total

/-- A 206 partial-content response of the range branch. -/
structure SliceResponse where
  contentRange : String
  contentLength : Int
  body : List Nat
deriving DecidableEq, Repr

/-- The range branch of `stream_media` (app.py lines 529-550): parse the
header, clamp `start` into `[0, file_size-1]`, clamp `end` to
`file_size-1`, read `end - start + 1` bytes from offset `start`, and
answer 206 with `Content-Range`/`Content-Length`.  `none` is any raised
exception, which the handler maps to HTTP 416. -/
def stream_range_response (file : List Nat) (header : List Char) :
    Option SliceResponse :=
  let file_size : Int := file.length
  match parse_range_header header file_size with
  | none => none
  | some se =>
    let start := max 0 (min se.1 (file_size - 1))
    let stop := min se.2 (file_size - 1)
    let content_length := stop - start + 1
    match bufRead file start content_length with
    | none => none
    | some data =>
      some { contentRange := contentRangeValue start stop file_size,
             contentLength := content_length,
             body := data }

/-- Python `s.startswith(pat)`. -/
def strStartsWith : List Char → List Char → Bool
  | _, [] => true
  | [], _ :: _ => false
  | c :: cs, p :: ps => c = p && strStartsWith cs ps

/-- The outcome of one `GET /stream/{path}` request on an existing file:
the store after the request and the HTTP status (200 full response, 206
partial, 416 range not satisfiable), with the slice for a 206. -/
structure StreamOutcome where
  store : List WatchRecord
  status : Nat
  slice : Option SliceResponse
deriving DecidableEq, Repr

/-- `stream_media` (app.py lines 508-559) for an existing file.
`file_name`/`file_type` are `os.path.basename(file_path)` and
`get_file_type` of it, passed through to `track_view` only.  The view is
tracked first — `if not range_header or range_header.startswith('bytes=0-')`,
where a missing or empty header is falsy — and the range branch
(`if range_header:`, i.e. a nonempty header) runs after. -/
def stream_media (store : List WatchRecord) (now : Nat)
    (client_ip file_path file_name file_type : String) (file : List Nat)
    (header : Option (List Char)) : StreamOutcome :=
  let file_size : Int := file.length
  let tracked : Bool :=
    match header with
    | none => true
    | some h => h.isEmpty || strStartsWith h ("bytes=0-".data)
  let store1 :=
    if tracked then track_view now client_ip file_path file_name file_type file_size store
    else store
  match header with
  | none => { store := store1, status := 200, slice := none }
  | some h =>
    if h.isEmpty then { store := store1, status := 200, slice := none }
    else
      match stream_range_response file h with
      | none => { store := store1, status := 416, slice := none }
      | some r => { store := store1, status := 206, slice := some r }

/-! ## Helper lemmas -/

theorem lowerByte_lowerByte (b : Nat) : lowerByte (lowerByte b) = lowerByte b := by
  simp only [lowerByte]
  split_ifs <;> omega

theorem pyLower_pyLower (s : List Nat) : pyLower (pyLower s) = pyLower s := by
  induction s with
  | nil => rfl
  | cons b t ih =>
    simp only [pyLower, List.map_cons, List.cons.injEq] at ih ⊢
    exact ⟨lowerByte_lowerByte b, ih⟩

/-! ## Claims -/

/-- C5: the copy-eligible classification (the `transcode_stream` membership
test applied to the `get_video_info` codec field) is a case-insensitive pure
function of the probed video codec name: every codec byte string classifies
exactly as its lowercase form does, and both `H264` and `h264` classify as
copy-eligible. -/
theorem copy_eligible_case_insensitive :
    (∀ s : List Nat, classifiesCopyEligible s = classifiesCopyEligible (pyLower s)) ∧
    classifiesCopyEligible (strBytes "H264") = true ∧
    classifiesCopyEligible (strBytes "h264") = true := by
  refine ⟨fun s => ?_, by decide, by decide⟩
  simp [classifiesCopyEligible, can_copy_video, get_video_info_codec, pyLower_pyLower]

/-- C10: `needs_transcode` (deny-list of `get_video_info`) and the
copy-vs-transcode decision of `/transcode` (allow-list) come from two
different fixed codec lists, and for the codec `vp9` the flag is `false`
while the transcode pipeline still selects the full re-encode (`libx264`,
not stream copy). -/
theorem needs_transcode_vs_copy_decision :
    unsupported_codecs ≠ compatible_codecs ∧
    needs_transcode (strBytes "vp9") = false ∧
    can_copy_video (get_video_info_codec (strBytes "vp9")) = false ∧
    Tok.lit "libx264" ∈ transcode_cmd (get_video_info_codec (strBytes "vp9")) 0 0 ∧
    Tok.lit "copy" ∉ transcode_cmd (get_video_info_codec (strBytes "vp9")) 0 0 := by
  decide

/-- C1 counterexample: on the generic-exception exit path, when the killed
process has not yet died by the `finally` poll, the generator finishes with
the process killed but never waited on — the claim that every exit path
kills and waits is false at this schedule. -/
theorem transcode_cleanup_no_wait_on_exception :
    (transcode_generator_final .readExc false false).killSent = true ∧
    (transcode_generator_final .readExc false false).reaped = false := by
  decide

/-- C1 amended: on every exit path of `transcode_generator` and under every
schedule, the spawned process is either killed or already reaped when the
generator finishes (no process survives un-signalled), and on the normal and
cancellation paths it is moreover always waited on (reaped); only the
generic-exception path can end with a kill that is never waited on. -/
theorem transcode_cleanup_killed_on_every_path (path : ExitPath) (d1 d2 : Bool) :
    ((transcode_generator_final path d1 d2).killSent = true ∨
      (transcode_generator_final path d1 d2).reaped = true) ∧
    (path ≠ ExitPath.readExc → (transcode_generator_final path d1 d2).reaped = true) := by
  cases path <;> cases d1 <;> cases d2 <;> exact ⟨by decide, by decide⟩

/-- C1 witness: on the cancellation path with the process still alive at
both polls, the generator reaps the process. -/
theorem transcode_cleanup_killed_on_every_path_witness :
    (transcode_generator_final .cancelled false false).reaped = true :=
  (transcode_cleanup_killed_on_every_path .cancelled false false).2 (by decide)

/-- C8 counterexample: an audio stream with language, title and channel
metadata all absent gets the label `2ch` (the missing channel count
defaults to 2 and stays truthy), not the claimed `Track 1` fallback. -/
theorem audio_label_absent_metadata_not_track :
    get_audio_track_labels [⟨none, none, none⟩] = ["2ch"] ∧
    ("2ch" : String) ≠ "Track " ++ toString (0 + 1) := by
  constructor
  · rfl
  · decide

/-- C8 amended: each track label is synthesized from the uppercased
language, the title and — for audio — the channel-count heuristic
(6 to `5.1`, 8 to `7.1`, else the count followed by `ch`), joined with
`" - "`; but for audio an absent channel count defaults to 2, so a track
with no metadata at all is labelled `2ch`, and the `Track N` fallback
(N = i+1) applies to an audio track only when its channel count is
explicitly 0 with language and title absent, while for subtitle tracks
it applies whenever language and title are absent. -/
theorem track_label_synthesis (streams : List AudioStream)
    (subs : List SubtitleStream) (i j : Nat) (s : AudioStream)
    (t : SubtitleStream) (lang title : String) (ch : Int) :
    (get_audio_track_labels streams).get? i = (streams.get? i).map (audio_label i) ∧
    (get_subtitle_track_labels subs).get? j = (subs.get? j).map (subtitle_label j) ∧
    chLabel 6 = "5.1" ∧ chLabel 8 = "7.1" ∧
    (ch ≠ 6 → ch ≠ 8 → chLabel ch = toString ch ++ "ch") ∧
    (lang ≠ "" → title ≠ "" → ch ≠ 0 →
      audio_label i ⟨some ch, some lang, some title⟩ =
        pyUpper lang ++ " - " ++ title ++ " - " ++ chLabel ch) ∧
    (s.language.getD "" = "" → s.title.getD "" = "" → s.channels = none →
      audio_label i s = "2ch") ∧
    (s.language.getD "" = "" → s.title.getD "" = "" → s.channels.getD 2 = 0 →
      audio_label i s = "Track " ++ toString (i + 1)) ∧
    (lang ≠ "" → title ≠ "" →
      subtitle_label j ⟨some lang, some title⟩ = pyUpper lang ++ " - " ++ title) ∧
    (t.language.getD "" = "" → t.title.getD "" = "" →
      subtitle_label j t = "Track " ++ toString (j + 1)) := by
  refine ⟨?_, ?_, rfl, rfl, ?_, ?_, ?_, ?_, ?_, ?_⟩
  · simp only [get_audio_track_labels, List.get?_map, List.get?_enum]
    cases streams.get? i <;> rfl
  · simp only [get_subtitle_track_labels, List.get?_map, List.get?_enum]
    cases subs.get? j <;> rfl
  · intro h6 h8
    simp [chLabel, h6, h8]
  · intro hl ht hc
    simp only [audio_label, Option.getD_some, if_pos hl, if_pos ht, if_pos hc]
    simp [String.intercalate, String.intercalate.go]
  · intro hl ht hc
    obtain ⟨c, l, tt⟩ := s
    simp only at hl ht hc
    subst hc
    simp only [audio_label, Option.getD_none, hl, ht]
    norm_num
    rfl
  · intro hl ht hc
    obtain ⟨c, l, tt⟩ := s
    simp only at hl ht hc
    simp [audio_label, hl, ht, hc]
  · intro hl ht
    simp only [subtitle_label, Option.getD_some, if_pos hl, if_pos ht]
    simp [String.intercalate, String.intercalate.go]
  · intro hl ht
    obtain ⟨l, tt⟩ := t
    simp only at hl ht
    simp [subtitle_label, hl, ht, String.intercalate, String.intercalate.go]

/-- C8 witness: a fully-tagged 5.1 audio stream is labelled
`ENG - Commentary - 5.1`. -/
theorem track_label_synthesis_witness :
    audio_label 0 ⟨some 6, some "eng", some "Commentary"⟩ =
      "ENG - Commentary - 5.1" := by
  have h := (track_label_synthesis [] [] 0 0 ⟨none, none, none⟩ ⟨none, none⟩
    "eng" "Commentary" 6).2.2.2.2.2.1 (by decide) (by decide) (by decide)
  rw [h]
  rfl

/-- C4: the seek arguments of the built encoder command.  Copy-eligible
codec and `start_time > 0`: a coarse seek of `max 0 (start_time - 30)`
before the input — omitted entirely when that value is 0 — and a fine
seek of the remainder after the input, the two summing to `start_time`.
Not copy-eligible and `start_time > 0`: exactly one seek of `start_time`
before the input and none after.  `start_time = 0`: no seek arguments at
all. -/
theorem transcode_seek_strategy (codec : List Nat) (start_time : ℚ)
    (audio_track : Int) :
    (can_copy_video codec = true → 0 < start_time →
      seeksBefore (transcode_cmd codec start_time audio_track) =
        (if 0 < max 0 (start_time - 30) then [max 0 (start_time - 30)] else []) ∧
      seeksAfter (transcode_cmd codec start_time audio_track) =
        [start_time - max 0 (start_time - 30)] ∧
      max 0 (start_time - 30) + (start_time - max 0 (start_time - 30)) = start_time) ∧
    (can_copy_video codec = false → 0 < start_time →
      seeksBefore (transcode_cmd codec start_time audio_track) = [start_time] ∧
      seeksAfter (transcode_cmd codec start_time audio_track) = []) ∧
    (start_time = 0 →
      seeksBefore (transcode_cmd codec start_time audio_track) = [] ∧
      seeksAfter (transcode_cmd codec start_time audio_track) = []) := by
  refine ⟨fun hc ht => ?_, fun hc ht => ?_, fun h0 => ?_⟩
  · have hfine : 0 < start_time - max 0 (start_time - 30) := by
      rcases le_or_lt (start_time - 30) 0 with h | h
      · rw [max_eq_left h]
        simpa using ht
      · rw [max_eq_right h.le]
        linarith
    by_cases hcoarse : 0 < max 0 (start_time - 30)
    · simp [transcode_cmd, hc, ht, hcoarse, hfine, seeksBefore, seeksAfter,
        takeUntilInput, dropUntilInput, seekTimes]
    · simp [transcode_cmd, hc, ht, hcoarse, hfine, seeksBefore, seeksAfter,
        takeUntilInput, dropUntilInput, seekTimes]
  · simp [transcode_cmd, hc, ht, seeksBefore, seeksAfter,
      takeUntilInput, dropUntilInput, seekTimes]
  · subst h0
    by_cases hc : can_copy_video codec <;>
      simp [transcode_cmd, hc, seeksBefore, seeksAfter,
        takeUntilInput, dropUntilInput, seekTimes]

/-- C4 witness: copy-eligible `h264` at `start_time = 45` gets a coarse
seek of 15 before the input and a fine seek of 30 after it; `mpeg4` at
45 gets the single pre-input seek 45. -/
theorem transcode_seek_strategy_witness :
    seeksBefore (transcode_cmd (strBytes "h264") 45 0) = [15] ∧
    seeksAfter (transcode_cmd (strBytes "h264") 45 0) = [30] ∧
    seeksBefore (transcode_cmd (strBytes "mpeg4") 45 0) = [45] ∧
    seeksAfter (transcode_cmd (strBytes "mpeg4") 45 0) = [] := by
  have h1 := (transcode_seek_strategy (strBytes "h264") 45 0).1 (by decide) (by norm_num)
  have h2 := (transcode_seek_strategy (strBytes "mpeg4") 45 0).2.1 (by decide) (by norm_num)
  have hmax : max (0 : ℚ) (45 - 30) = 15 := by norm_num
  rw [hmax] at h1
  norm_num at h1
  exact ⟨h1.1, h1.2, h2.1, h2.2⟩

/-- C6: `track_view` is an upsert keyed on `(clientIdentity, filePath)`.
With no matching record the store gains exactly one new record with
`view_count = 1` (appended; nothing else changes).  With a matching
record, the store splits around its first match, only that record is
replaced — `view_count` incremented by exactly 1 and `last_watched`
refreshed, every other field and record untouched — and the length is
unchanged (no insertion).  The number of matching records after a call
is `max 1` of the number before, so repeated calls never create a
second record. -/
theorem track_view_upsert (store : List WatchRecord) (now : Nat)
    (ip fpath name ftype : String) (size : Int) :
    (countMatch ip fpath store = 0 →
      track_view now ip fpath name ftype size store =
        store ++ [⟨ip, fpath, name, ftype, size, now, now, 1, 0⟩]) ∧
    (0 < countMatch ip fpath store →
      ∃ pre r post, store = pre ++ r :: post ∧
        (∀ p ∈ pre, recMatches ip fpath p = false) ∧
        recMatches ip fpath r = true ∧
        track_view now ip fpath name ftype size store =
          pre ++ { r with last_watched := now,
                          view_count := r.view_count + 1 } :: post) ∧
    (0 < countMatch ip fpath store →
      (track_view now ip fpath name ftype size store).length = store.length) ∧
    countMatch ip fpath (track_view now ip fpath name ftype size store) =
      max 1 (countMatch ip fpath store) := by
  induction store with
  | nil =>
    refine ⟨fun _ => rfl, fun h => absurd h (by simp [countMatch]), fun h => absurd h (by simp [countMatch]), ?_⟩
    simp [track_view, countMatch, List.countP, List.countP.go, recMatches]
  | cons r rs ih =>
    by_cases hr : recMatches ip fpath r
    · have hcount : countMatch ip fpath (r :: rs) = countMatch ip fpath rs + 1 := by
        simp [countMatch, List.countP_cons, hr]
      refine ⟨fun h => ?_, fun _ => ?_, fun _ => ?_, ?_⟩
      · omega
      · refine ⟨[], r, rs, by simp, by simp, hr, ?_⟩
        simp [track_view, hr]
      · simp [track_view, hr]
      · have hr' : recMatches ip fpath
            { r with last_watched := now, view_count := r.view_count + 1 } = true := by
          simpa [recMatches] using hr
        simp [track_view, hr, countMatch, List.countP_cons, hr']
    · have hcount : countMatch ip fpath (r :: rs) = countMatch ip fpath rs := by
        simp [countMatch, List.countP_cons, hr]
      refine ⟨fun h => ?_, fun h => ?_, fun h => ?_, ?_⟩
      · rw [hcount] at h
        simp [track_view, hr, ih.1 h]
      · rw [hcount] at h
        obtain ⟨pre, q, post, hsplit, hpre, hq, heq⟩ := ih.2.1 h
        refine ⟨r :: pre, q, post, by simp [hsplit], ?_, hq, ?_⟩
        · intro p hp
          rcases List.mem_cons.mp hp with h1 | h1
          · subst h1
            simpa using hr
          · exact hpre p h1
        · simp [track_view, hr, heq]
      · rw [hcount] at h
        simp [track_view, hr, ih.2.2.1 h]
      · simp [track_view, hr, countMatch, List.countP_cons]
        simp [countMatch] at ih
        omega

/-- C6 witness: tracking a view on an empty store inserts exactly one
record with `view_count = 1`. -/
theorem track_view_upsert_witness :
    track_view 5 "1.2.3.4" "movie.mp4" "movie.mp4" "video" 1000 [] =
      [⟨"1.2.3.4", "movie.mp4", "movie.mp4", "video", 1000, 5, 5, 1, 0⟩] :=
  (track_view_upsert [] 5 "1.2.3.4" "movie.mp4" "movie.mp4" "video" 1000).1 rfl

/-- C7: `save_playback_position` reports success unconditionally, keeps the
store length, rewrites a record matching `(clientIdentity, filePath)` to the
same record with only `playback_position` and `last_watched` replaced
(every other field — `view_count`, `first_watched`, `file_name`,
`file_type`, `file_size` — is carried over), leaves every non-matching
record exactly as it was, and when no record matches it leaves the entire
store unchanged. -/
theorem save_position_frame (store : List WatchRecord) (now : Nat)
    (ip fpath : String) (position : Int) :
    (save_playback_position now ip fpath position store).2 = true ∧
    (save_playback_position now ip fpath position store).1.length = store.length ∧
    (∀ i : Nat, ∀ r : WatchRecord, store.get? i = some r →
      (save_playback_position now ip fpath position store).1.get? i =
        some (if recMatches ip fpath r then
                { r with playback_position := position, last_watched := now }
              else r)) ∧
    (countMatch ip fpath store = 0 →
      (save_playback_position now ip fpath position store).1 = store) := by
  refine ⟨rfl, by simp [save_playback_position], fun i r hir => ?_, fun h0 => ?_⟩
  · rw [List.get?_eq_getElem?] at hir
    rw [List.get?_eq_getElem?]
    simp [save_playback_position, List.getElem?_map, hir]
  · have hall : ∀ p ∈ store, recMatches ip fpath p = false := by
      intro p hp
      have := List.countP_eq_zero.mp h0 p hp
      simpa using this
    simp only [save_playback_position]
    conv_rhs => rw [← List.map_id store]
    apply List.map_congr_left
    intro a ha
    simp [hall a ha]

/-- C7 witness: saving a position on a one-record store with a matching
record updates only `playback_position` and `last_watched` of it. -/
theorem save_position_frame_witness :
    (save_playback_position 9 "1.2.3.4" "movie.mp4" 120
        [⟨"1.2.3.4", "movie.mp4", "movie.mp4", "video", 1000, 5, 5, 1, 0⟩]).1.get? 0 =
      some ⟨"1.2.3.4", "movie.mp4", "movie.mp4", "video", 1000, 5, 9, 1, 120⟩ := by
  have h := (save_position_frame
    [⟨"1.2.3.4", "movie.mp4", "movie.mp4", "video", 1000, 5, 5, 1, 0⟩]
    9 "1.2.3.4" "movie.mp4" 120).2.2.1 0
    ⟨"1.2.3.4", "movie.mp4", "movie.mp4", "video", 1000, 5, 5, 1, 0⟩ rfl
  rw [h]
  rfl

/-- C2: for an existing nonempty file and a `Range` header parsing to
`(start, end)` with `0 ≤ start ≤ end` (an empty start parses as 0, an
empty end as `total-1`, and the parsed end is clamped to `total-1`), the
`/stream` endpoint answers 206 whose body is exactly the
`end - start + 1` bytes of the file from offset `start`, with
`Content-Length` equal to `end - start + 1` and `Content-Range` equal to
`bytes start-end/total`. -/
theorem stream_206_range_semantics (store : List WatchRecord) (now : Nat)
    (client_ip file_path file_name file_type : String) (file : List Nat)
    (h : List Char) (s0 e0 : Int)
    (hsize : 0 < file.length) (hne : h ≠ [])
    (hparse : parse_range_header h (file.length : Int) = some (s0, e0))
    (hs : 0 ≤ s0) (hse : s0 ≤ min e0 ((file.length : Int) - 1)) :
    (stream_media store now client_ip file_path file_name file_type file
        (some h)).status = 206 ∧
    (stream_media store now client_ip file_path file_name file_type file
        (some h)).slice =
      some { contentRange :=
               contentRangeValue s0 (min e0 ((file.length : Int) - 1))
                 (file.length : Int),
             contentLength := min e0 ((file.length : Int) - 1) - s0 + 1,
             body := (file.drop s0.toNat).take
               (min e0 ((file.length : Int) - 1) - s0 + 1).toNat } ∧
    (((file.drop s0.toNat).take
        (min e0 ((file.length : Int) - 1) - s0 + 1).toNat).length : Int) =
      min e0 ((file.length : Int) - 1) - s0 + 1 := by
  have hstart : max 0 (min s0 ((file.length : Int) - 1)) = s0 := by omega
  have hresp : stream_range_response file h =
      some { contentRange :=
               contentRangeValue s0 (min e0 ((file.length : Int) - 1))
                 (file.length : Int),
             contentLength := min e0 ((file.length : Int) - 1) - s0 + 1,
             body := (file.drop s0.toNat).take
               (min e0 ((file.length : Int) - 1) - s0 + 1).toNat } := by
    simp only [stream_range_response, hparse]
    rw [hstart]
    have hn1 : ¬ (min e0 ((file.length : Int) - 1) - s0 + 1 = -1) := by omega
    have hn2 : ¬ (min e0 ((file.length : Int) - 1) - s0 + 1 < -1) := by omega
    have hpos : ¬ (s0 < (0 : Int)) := by omega
    simp only [bufRead, if_neg hpos, if_neg hn1, if_neg hn2]
  have hE : h.isEmpty = false := by
    cases h with
    | nil => exact absurd rfl hne
    | cons a t => rfl
  refine ⟨?_, ?_, ?_⟩
  · simp [stream_media, hE, hresp]
  · simp [stream_media, hE, hresp]
  · rw [List.length_take, List.length_drop]
    omega

/-- C2 witness: `bytes=1-2` on a 4-byte file yields 206,
`Content-Range: bytes 1-2/4`, `Content-Length: 2` and the two bytes at
offsets 1 and 2. -/
theorem stream_206_range_semantics_witness :
    (stream_media [] 0 "1.2.3.4" "movie.mp4" "movie.mp4" "video"
        [10, 20, 30, 40] (some ("bytes=1-2".data))).status = 206 ∧
    (stream_media [] 0 "1.2.3.4" "movie.mp4" "movie.mp4" "video"
        [10, 20, 30, 40] (some ("bytes=1-2".data))).slice =
      some { contentRange := "bytes 1-2/4", contentLength := 2,
             body := [20, 30] } := by
  have hthm := stream_206_range_semantics [] 0 "1.2.3.4" "movie.mp4"
    "movie.mp4" "video" [10, 20, 30, 40] ("bytes=1-2".data) 1 2
    (by decide) (by decide) (by decide) (by decide) (by decide)
  refine ⟨hthm.1, ?_⟩
  rw [hthm.2.1]
  decide

/-- C3 counterexample: on a 10-byte file the header `bytes=15-` has a
parsed start of 15 ≥ total, yet `/stream` clamps it to 9 and answers
206, not the claimed 416. -/
theorem stream_start_past_eof_not_416 :
    (stream_media [] 0 "1.2.3.4" "movie.mp4" "movie.mp4" "video"
        [0, 1, 2, 3, 4, 5, 6, 7, 8, 9] (some ("bytes=15-".data))).status = 206 := by
  decide

/-- C3 amended: for an existing nonempty file, a malformed `Range` header
(one whose parsing raises) makes `/stream` fail with 416; but a parsed
start at or past the total is clamped to `total-1` rather than rejected,
and after clamping both endpoints the endpoint returns 416 exactly when
the clamped start exceeds the clamped end by 3 or more (the negative
read length is rejected by the file read), answering 206 in every other
case — including start = end+1 (empty body) and start = end+2. -/
theorem stream_416_characterization (store : List WatchRecord) (now : Nat)
    (client_ip file_path file_name file_type : String) (file : List Nat)
    (h : List Char) (s0 e0 : Int) (hsize : 0 < file.length) (hne : h ≠ []) :
    (parse_range_header h (file.length : Int) = none →
      (stream_media store now client_ip file_path file_name file_type file
          (some h)).status = 416) ∧
    (parse_range_header h (file.length : Int) = some (s0, e0) →
      0 ≤ s0 → 0 ≤ e0 →
      (stream_media store now client_ip file_path file_name file_type file
          (some h)).status =
        if min e0 ((file.length : Int) - 1) + 3 ≤ min s0 ((file.length : Int) - 1)
        then 416 else 206) := by
  have hE : h.isEmpty = false := by
    cases h with
    | nil => exact absurd rfl hne
    | cons a t => rfl
  constructor
  · intro hbad
    have hresp : stream_range_response file h = none := by
      simp only [stream_range_response, hbad]
    simp [stream_media, hE, hresp]
  · intro hparse hs he
    have hstart : max 0 (min s0 ((file.length : Int) - 1)) =
        min s0 ((file.length : Int) - 1) := by omega
    have hpos : ¬ (min s0 ((file.length : Int) - 1) < 0) := by omega
    have hresp : stream_range_response file h =
        Option.map (fun data =>
          { contentRange := contentRangeValue (min s0 ((file.length : Int) - 1))
              (min e0 ((file.length : Int) - 1)) (file.length : Int),
            contentLength := min e0 ((file.length : Int) - 1) -
              min s0 ((file.length : Int) - 1) + 1,
            body := data })
          (bufRead file (min s0 ((file.length : Int) - 1))
            (min e0 ((file.length : Int) - 1) -
              min s0 ((file.length : Int) - 1) + 1)) := by
      simp only [stream_range_response, hparse, hstart]
      cases bufRead file (min s0 ((file.length : Int) - 1))
        (min e0 ((file.length : Int) - 1) -
          min s0 ((file.length : Int) - 1) + 1) <;> rfl
    by_cases hc : min e0 ((file.length : Int) - 1) + 3 ≤
        min s0 ((file.length : Int) - 1)
    · have hne : ¬ (min e0 ((file.length : Int) - 1) -
          min s0 ((file.length : Int) - 1) + 1 = -1) := by omega
      have hlt : min e0 ((file.length : Int) - 1) -
          min s0 ((file.length : Int) - 1) + 1 < -1 := by omega
      have hb : bufRead file (min s0 ((file.length : Int) - 1))
          (min e0 ((file.length : Int) - 1) -
            min s0 ((file.length : Int) - 1) + 1) = none := by
        simp only [bufRead, if_neg hpos, if_neg hne, if_pos hlt]
      rw [hb] at hresp
      simp only [Option.map_none'] at hresp
      simp [stream_media, hE, hresp, hc]
    · have hsome : ∃ d, bufRead file (min s0 ((file.length : Int) - 1))
          (min e0 ((file.length : Int) - 1) -
            min s0 ((file.length : Int) - 1) + 1) = some d := by
        simp only [bufRead, if_neg hpos]
        by_cases hm1 : min e0 ((file.length : Int) - 1) -
            min s0 ((file.length : Int) - 1) + 1 = -1
        · rw [if_pos hm1]
          exact ⟨_, rfl⟩
        · rw [if_neg hm1, if_neg (by omega)]
          exact ⟨_, rfl⟩
      obtain ⟨d, hd⟩ := hsome
      rw [hd] at hresp
      simp only [Option.map_some'] at hresp
      simp [stream_media, hE, hresp, hc]

/-- C3 witness: `bytes=5-1` on a 10-byte file (clamped start 5 exceeds
clamped end 1 by 4) fails with 416. -/
theorem stream_416_characterization_witness :
    (stream_media [] 0 "1.2.3.4" "movie.mp4" "movie.mp4" "video"
        [0, 1, 2, 3, 4, 5, 6, 7, 8, 9] (some ("bytes=5-1".data))).status = 416 := by
  have hthm := (stream_416_characterization [] 0 "1.2.3.4" "movie.mp4"
    "movie.mp4" "video" [0, 1, 2, 3, 4, 5, 6, 7, 8, 9] ("bytes=5-1".data)
    5 1 (by decide) (by decide)).2 (by decide) (by decide) (by decide)
  simpa using hthm

/-- C9: a `Range` header that starts with `bytes=0-` but fails to parse
first records the view (new record or incremented count, via
`track_view`) and then answers 416, leaving that record in place. -/
theorem stream_tracks_view_despite_416 (store : List WatchRecord) (now : Nat)
    (client_ip file_path file_name file_type : String) (file : List Nat)
    (h : List Char)
    (hpre : strStartsWith h ("bytes=0-".data) = true)
    (hbad : parse_range_header h (file.length : Int) = none) :
    stream_media store now client_ip file_path file_name file_type file
        (some h) =
      { store := track_view now client_ip file_path file_name file_type
          (file.length : Int) store,
        status := 416, slice := none } := by
  have hne : h ≠ [] := by
    rintro rfl
    simp [strStartsWith] at hpre
  have hE : h.isEmpty = false := by
    cases h with
    | nil => exact absurd rfl hne
    | cons a t => rfl
  have hresp : stream_range_response file h = none := by
    simp only [stream_range_response, hbad]
  simp [stream_media, hE, hresp, hpre]

/-- C9 witness: `bytes=0-x` on a 3-byte file inserts the view record and
still answers 416. -/
theorem stream_tracks_view_despite_416_witness :
    stream_media [] 5 "1.2.3.4" "movie.mp4" "movie.mp4" "video" [0, 1, 2]
        (some ("bytes=0-x".data)) =
      { store := [⟨"1.2.3.4", "movie.mp4", "movie.mp4", "video", 3, 5, 5, 1, 0⟩],
        status := 416, slice := none } := by
  rw [stream_tracks_view_despite_416 [] 5 "1.2.3.4" "movie.mp4" "movie.mp4"
    "video" [0, 1, 2] ("bytes=0-x".data) (by decide) (by decide)]
  decide
